import Mathlib

/-!
Verification of the wikisnap HTML→Markdown conversion core
(`src/bin/wikisnap.py`) against its natural-language specification.

The parsed HTML document is modelled as a tree of element nodes and text
runs (mirroring the BeautifulSoup `Tag` / `NavigableString` values the
Python code traverses).  Each conversion function of the source file is
embedded as a Lean function of the same name; the batch driver, network
and archive layers are out of scope (the spec treats them as external
collaborators), so `html_to_markdown` here receives the already-parsed
tree, exactly as the conversion core receives it from BeautifulSoup.
-/

namespace Wikisnap

mutual
/-- A parsed HTML node: either a text run (`NavigableString`) or an
element (`Tag`) with a name, a list of CSS classes (BeautifulSoup's
`class` attribute list), the remaining attributes, and ordered children.
A mutual inductive is used so that every traversal below is structurally
recursive and kernel-computable. -/
inductive Node where
  | text (s : String)
  | tag (name : String) (classes : List String) (attrs : List (String × String)) (children : NodeList)
inductive NodeList where
  | nil
  | cons (head : Node) (tail : NodeList)
end

/-- Convert a Lean list of nodes into a `NodeList` (concrete-tree helper). -/
def nl : List Node → NodeList
  | [] => .nil
  | n :: rest => .cons n (nl rest)

/-- Flatten a `NodeList` back into a Lean list. -/
def NodeList.toList : NodeList → List Node
  | .nil => []
  | .cons n rest => n :: rest.toList

/-- The element name of a node (text runs have no name). -/
def nameOf : Node → String
  | .text _ => ""
  | .tag n _ _ _ => n

/-- The CSS class list of a node. -/
def classesOf : Node → List String
  | .text _ => []
  | .tag _ cs _ _ => cs

/-- The children of a node (text runs have none). -/
def childrenOf : Node → NodeList
  | .text _ => .nil
  | .tag _ _ _ ch => ch

/-- Attribute lookup, `tag.get(key)` in the source. -/
def attrOf : Node → String → Option String
  | .text _, _ => none
  | .tag _ _ attrs _, key => attrs.lookup key

/-- Python's whitespace test used by `str.strip` / `str.rstrip`. -/
def isWS (c : Char) : Bool := c.isWhitespace

/-- Python `str.strip()`: drop leading and trailing whitespace. -/
def pyStrip (s : String) : String :=
  String.mk (List.rdropWhile isWS (s.data.dropWhile isWS))

/-- Python `str.rstrip()`: drop trailing whitespace. -/
def pyRstrip (s : String) : String :=
  String.mk (List.rdropWhile isWS s.data)

/-- Python `str.rstrip("\n")` as used in `convert_code_block`: drop
trailing newline characters only. -/
def rstripNL (s : String) : String :=
  String.mk (s.data.rdropWhile (fun c => c == '\n'))

mutual
/-- All descendant text runs of a node in document order (the strings
BeautifulSoup's `get_text` joins). -/
def textRuns : Node → List String
  | .text s => [s]
  | .tag _ _ _ ch => textRunsList ch
def textRunsList : NodeList → List String
  | .nil => []
  | .cons n rest => textRuns n ++ textRunsList rest
end

/-- BeautifulSoup `node.get_text(sep)`: all text runs joined by `sep`. -/
def getTextSep (sep : String) (n : Node) : String :=
  String.intercalate sep (textRuns n)

/-- BeautifulSoup `node.get_text(sep, strip=True)`: each text run is
stripped, whitespace-only runs are dropped, the rest joined by `sep`. -/
def getTextStripSep (sep : String) (n : Node) : String :=
  String.intercalate sep (((textRuns n).map pyStrip).filter (fun s => s ≠ ""))

mutual
/-- Embedding of `convert_inline` of the source.  The `parent` argument
is the element name of the node's parent, which the source reads as
`node.parent.name` (every call site passes a node that sits under a
known element). -/
def convert_inline (parent : String) : Node → String
  | .text s => s
  | .tag name classes attrs children =>
      if name == "sup" && classes.contains "reference" then ""
      else if name == "span" &&
          (classes.contains "mw-editsection" || classes.contains "mw-editsection-visualeditor") then ""
      else
        let inner := convert_inline_children name children
        if name == "b" || name == "strong" then "**" ++ inner ++ "**"
        else if name == "i" || name == "em" then "*" ++ inner ++ "*"
        else if name == "code" && !(parent == "pre") then "`" ++ inner ++ "`"
        else if name == "a" then
          match attrs.lookup "href" with
          | some href => "[" ++ inner ++ "](" ++ href ++ ")"
          | none => inner
        else inner
def convert_inline_children (parent : String) : NodeList → String
  | .nil => ""
  | .cons n rest => convert_inline parent n ++ convert_inline_children parent rest
end

/-- Digit value of the second character of a tag name, `int(tag.name[1])`
in the source (`convert_heading` is only reached with names `h2`–`h6`,
for which this is total and agrees with Python). -/
def headingDigit (name : String) : Nat :=
  match name.data with
  | _ :: c :: _ => c.toNat - '0'.toNat
  | _ => 0

/-- Source expression `'#' * level`. -/
def hashMarks (level : Nat) : String :=
  String.mk (List.replicate level '#')

/-- Embedding of `convert_heading` of the source. -/
def convert_heading : Node → List String
  | .text _ => []
  | .tag name _ _ ch =>
      let text := pyStrip (convert_inline_children name ch)
      if text = "" then []
      else
        let level := max 1 (min 6 (headingDigit name))
        [hashMarks level ++ " " ++ text, ""]

/-- Embedding of `convert_paragraph` of the source. -/
def convert_paragraph : Node → List String
  | .text _ => []
  | .tag name _ _ ch =>
      let text := pyStrip (convert_inline_children name ch)
      if text = "" then [] else [text, ""]

/-- Is the node a `<ul>` or `<ol>` element (a nested list inside an item)? -/
def isSubList : Node → Bool
  | .text _ => false
  | .tag n _ _ _ => n == "ul" || n == "ol"

/-- Is the node an `<li>` element? -/
def isLiTag : Node → Bool
  | .text _ => false
  | .tag n _ _ _ => n == "li"

/-- Is the node an `<ol>` element (`sub.name == "ol"` in the source)? -/
def isOl : Node → Bool
  | .text _ => false
  | .tag n _ _ _ => n == "ol"

/-- Source expression `"  " * indent`. -/
def indentStr (indent : Nat) : String :=
  String.mk (List.replicate (2 * indent) ' ')

/-- The joined inline rendering of an `<li>`'s non-list children
(`"".join(convert_inline(c) for c in inline_children)` in the source;
children that are nested lists are excluded by the partition). -/
def inlineItemText (parent : String) : NodeList → String
  | .nil => ""
  | .cons c rest =>
      (if isSubList c then "" else convert_inline parent c) ++ inlineItemText parent rest

mutual
/-- Embedding of `convert_list` of the source, together with its loop,
split into one function per loop level.  `convert_list_items` walks the
direct children of the `<ul>`/`<ol>` keeping the 1-based item counter
`index` (which the source increments for every `<li>` whether or not a
line is emitted); `convert_list_item` renders one `<li>`;
`convert_list_subs` recursively renders the item's nested lists with the
clamped indent `min (indent + 1) 2`. -/
def convert_list : Node → Nat → Bool → List String
  | .text _, _, _ => []
  | .tag _ _ _ ch, indent, ordered =>
      let lines := convert_list_items ch 1 indent ordered
      if lines.isEmpty then [] else lines ++ [""]
def convert_list_items : NodeList → Nat → Nat → Bool → List String
  | .nil, _, _, _ => []
  | .cons c rest, index, indent, ordered =>
      if isLiTag c then
        convert_list_item c index indent ordered
          ++ convert_list_items rest (index + 1) indent ordered
      else convert_list_items rest index indent ordered
def convert_list_item : Node → Nat → Nat → Bool → List String
  | .text _, _, _, _ => []
  | .tag name _ _ ch, index, indent, ordered =>
      let itemText := pyStrip (inlineItemText name ch)
      let marker := if ordered then Nat.repr index ++ "." else "-"
      (if itemText ≠ "" then [indentStr indent ++ marker ++ " " ++ itemText] else [])
        ++ convert_list_subs ch indent
def convert_list_subs : NodeList → Nat → List String
  | .nil, _ => []
  | .cons c rest, indent =>
      (if isSubList c then convert_list c (min (indent + 1) 2) (isOl c) else [])
        ++ convert_list_subs rest indent
end

/-- Python `text.splitlines()` restricted to `'\n'` separators (the only
line terminator the converter ever produces): split on `'\n'`, without a
trailing empty piece for a trailing newline. -/
def splitlinesPy (s : String) : List String :=
  let parts := s.splitOn "\n"
  if parts.getLast? = some "" then parts.dropLast else parts

/-- Embedding of `convert_blockquote` of the source. -/
def convert_blockquote : Node → List String
  | .text _ => []
  | .tag name _ _ ch =>
      let text := pyStrip (convert_inline_children name ch)
      if text = "" then []
      else
        (((splitlinesPy text).map pyStrip).filter (fun l => l ≠ "")).map
          (fun l => "> " ++ l) ++ [""]

/-- Embedding of `convert_code_block` of the source: `tag.get_text("\n")` with
trailing newlines stripped, wrapped in fences. -/
def convert_code_block (tag : Node) : List String :=
  ["```", rstripNL (getTextSep "\n" tag), "```", ""]

/-- Constant `SKIP_SECTIONS` of the source (membership is all that matters). -/
def SKIP_SECTIONS : List String :=
  ["References", "External links", "See also", "Further reading", "Notes"]

/-- Constant `SKIP_CLASSES` of the source. -/
def SKIP_CLASSES : List String :=
  ["infobox", "navbox", "vertical-navbox", "hatnote", "metadata", "mwe-math-element", "sidebar"]

/-- Dispatch of a surviving top-level child to its block converter
(the final `if`/`elif` chain of the `html_to_markdown` loop). -/
def dispatchBlock : Node → List String
  | .text _ => []
  | c@(.tag name _ _ _) =>
      if ["h2", "h3", "h4", "h5", "h6"].contains name then convert_heading c
      else if name == "p" then convert_paragraph c
      else if name == "ul" || name == "ol" then convert_list c 0 (name == "ol")
      else if name == "pre" then convert_code_block c
      else if name == "blockquote" then convert_blockquote c
      else []

/-- One iteration of the `html_to_markdown` loop: given the current
`ignore_section` flag and one top-level child, return the updated flag
and the lines contributed by this child. -/
def bodyStep (ignore : Bool) : Node → Bool × List String
  | .text _ => (ignore, [])
  | c@(.tag name classes attrs _) =>
      if ["table", "figure", "img", "style", "script"].contains name then (ignore, [])
      else if name == "div" && attrs.lookup "id" == some "toc" then (ignore, [])
      else if classes.any (fun cls => SKIP_CLASSES.contains cls) then (ignore, [])
      else if name == "h2" then
        if SKIP_SECTIONS.contains (getTextStripSep " " c) then (true, [])
        else (false, dispatchBlock c)
      else if ignore then (ignore, [])
      else (ignore, dispatchBlock c)

/-- The `html_to_markdown` loop over the children of the content root,
threading the `ignore_section` flag. -/
def bodyLines : NodeList → Bool → List String
  | .nil, _ => []
  | .cons c rest, ignore =>
      let step := bodyStep ignore c
      step.2 ++ bodyLines rest step.1

mutual
/-- Preorder search of a node for the first element satisfying `p`
(BeautifulSoup `find` in document order). -/
def findNode (p : Node → Bool) : Node → Option Node
  | .text _ => none
  | c@(.tag _ _ _ ch) => if p c then some c else findNodeList p ch
def findNodeList (p : Node → Bool) : NodeList → Option Node
  | .nil => none
  | .cons n rest =>
      match findNode p n with
      | some r => some r
      | none => findNodeList p rest
end

/-- Predicate for `soup.find` with a `div` name filter: a `div` carrying
the `mw-parser-output` class token. -/
def isContentDiv : Node → Bool
  | .text _ => false
  | .tag n cs _ _ => n == "div" && cs.contains "mw-parser-output"

/-- Predicate for `soup.find` with an `h1` name filter. -/
def isH1 : Node → Bool
  | .text _ => false
  | .tag n _ _ _ => n == "h1"

/-- A calendar date as the Python `datetime.date` the converter receives. -/
structure PyDate where
  year : Nat
  month : Nat
  day : Nat

/-- Decimal rendering of `n`, zero-padded on the left to `w` digits. -/
def zpad (w n : Nat) : String :=
  String.mk (List.replicate (w - (Nat.repr n).length) '0') ++ Nat.repr n

/-- Python `date.isoformat()`: `YYYY-MM-DD`. -/
def PyDate.isoformat (d : PyDate) : String :=
  zpad 4 d.year ++ "-" ++ zpad 2 d.month ++ "-" ++ zpad 2 d.day

/-- Source expression `"\n".join(lines)`. -/
def joinNL : List String → String
  | [] => ""
  | [s] => s
  | s :: rest => s ++ "\n" ++ joinNL rest

/-- BeautifulSoup `node.get_text(strip=True)` with the default empty separator, used
for the displayed article title. -/
def getTextStripCat (n : Node) : String :=
  String.join (((textRuns n).map pyStrip).filter (fun s => s ≠ ""))

/-- Embedding of `html_to_markdown` of the source.  The HTML text has already been
parsed into the node forest `soup` (parsing is the external collaborator
in the spec; `html.parser` does not fail on any input handed to it, so
the only `None` return left is the missing content container).  Returns
`none` exactly when no `mw-parser-output` div exists, otherwise the full
document string. -/
def html_to_markdown (soup : NodeList) (csv_title url : String) (download_date : PyDate) :
    Option String :=
  match findNodeList isContentDiv soup with
  | none => none
  | some content =>
      let article_title :=
        match findNodeList isH1 soup with
        | some t => getTextStripCat t
        | none => csv_title
      let lines :=
        ["---",
         "title: " ++ csv_title,
         "url: " ++ url,
         "download_date: " ++ download_date.isoformat,
         "---",
         "",
         "# " ++ article_title,
         ""] ++ bodyLines (childrenOf content) false
      some (pyRstrip (joinNL lines) ++ "\n")

/-!
Specification-side reformulations (each is written from the spec's words
and compared with the source embedding above) and concrete input trees
used by the claim theorems.
-/

/-- The fixed-schema metadata header the spec requires at the start of
every produced document: the three `key: value` lines between literal
separator markers, followed by a line break. -/
def headerFor (csv_title url : String) (d : PyDate) : String :=
  "---" ++ "\n" ++ ("title: " ++ csv_title) ++ "\n" ++ ("url: " ++ url) ++ "\n"
    ++ ("download_date: " ++ d.isoformat) ++ "\n" ++ "---" ++ "\n"

/-- The direct `<li>` children of a list element (its items). -/
def liChildren (t : Node) : List Node :=
  (childrenOf t).toList.filter (fun c => isLiTag c)

/-- The direct nested-list children of an item. -/
def subListsOf (li : Node) : List Node :=
  (childrenOf li).toList.filter (fun c => isSubList c)

/-- The rendered inline text of an item (its non-list children rendered
and stripped). -/
def itemTextOf (li : Node) : String :=
  pyStrip (inlineItemText (nameOf li) (childrenOf li))

/-- Specification-side rendering of one ordered-list item at 1-based
position `pos`: one marker line when the rendered text is non-empty,
then the recursively rendered nested lists. -/
def orderedItemSpec (pos : Nat) (li : Node) (indent : Nat) : List String :=
  (if itemTextOf li ≠ "" then
      [indentStr indent ++ (Nat.repr pos ++ ".") ++ " " ++ itemTextOf li]
    else [])
    ++ ((subListsOf li).map (fun s => convert_list s (min (indent + 1) 2) (isOl s))).flatten

/-- Specification-side rendering of an ordered list: items enumerated by
their 1-based sibling position, counted regardless of whether an item's
rendered text is empty, followed by one blank separator line when
anything was produced. -/
def orderedListSpec (t : Node) (indent : Nat) : List String :=
  let body := (((liChildren t).enumFrom 1).map (fun p => orderedItemSpec p.1 p.2 indent)).flatten
  if body = [] then [] else body ++ [""]

/-- The raw text content of a node: the concatenation of its text runs,
with nothing inserted between adjacent runs. -/
def rawTextCat (n : Node) : String :=
  String.join (textRuns n)

/-- Is a line blank (empty or whitespace-only)? -/
def isBlankLine (l : String) : Bool :=
  l.data.all isWS

/-- Split a character list at every newline character. -/
def splitNLChars : List Char → List (List Char)
  | [] => [[]]
  | c :: rest =>
      match splitNLChars rest with
      | [] => [[]]
      | h :: t => if c = '\n' then [] :: h :: t else (c :: h) :: t

/-- Decompose a text into its lines (split at every line break). -/
def splitNL (s : String) : List String :=
  (splitNLChars s.data).map String.mk

/-- Strip trailing blank lines from a text, as a line-list operation. -/
def stripTrailingBlankLines (s : String) : String :=
  joinNL ((splitNL s).rdropWhile isBlankLine)

/-- The preformatted-block renderer exactly as claim C6 words it: the
node's raw text content with trailing blank lines stripped, wrapped in
fence lines, with one blank separator line. -/
def convert_code_block_claim (tag : Node) : List String :=
  ["```", stripTrailingBlankLines (rawTextCat tag), "```", ""]

/-- A line carries exactly a two-level (four-space) indent: its first
four characters are the two-level indent string and its fifth character,
when present, is not a space. -/
def FourIndent (l : String) : Prop :=
  l.data.take 4 = (indentStr 2).data ∧ ∀ c, (l.data.drop 4).head? = some c → c ≠ ' '

/-- Top-level sibling sequence of the section-suppression scenario of
claim C1. -/
def sibsSuppression : NodeList := nl [
  .tag "h2" [] [] (nl [.text "References"]),
  .tag "p" [] [] (nl [.text "ignored"]),
  .tag "h2" [] [] (nl [.text "See also"]),
  .tag "p" [] [] (nl [.text "ignored2"]),
  .tag "h2" [] [] (nl [.text "History"]),
  .tag "p" [] [] (nl [.text "kept"])]

/-- Input body of the end-to-end example of claim C2. -/
def sibsExample : NodeList := nl [
  .tag "h2" [] [] (nl [.text "Overview"]),
  .tag "p" [] [] (nl [.text "A ", .tag "strong" [] [] (nl [.text "legacy"]), .text " system"]),
  .tag "ul" [] [] (nl [
    .tag "li" [] [] (nl [.text "x"]),
    .tag "li" [] [] (nl [.text "y"])])]

/-- A minimal page tree: a content container with an empty body. -/
def soupMinimal : NodeList :=
  nl [.tag "div" ["mw-parser-output"] [] (nl [])]

/-- A page tree with no content container. -/
def soupNoContent : NodeList :=
  nl [.tag "div" [] [] (nl [.tag "p" [] [] (nl [.text "x"])])]

/-- A one-item unordered list (witness input for the indent-clamp claim). -/
def ulSimple : Node :=
  .tag "ul" [] [] (nl [.tag "li" [] [] (nl [.text "a"])])

/-- A preformatted node whose text is split across an element boundary
(counterexample input for claim C6). -/
def preMixed : Node :=
  .tag "pre" [] [] (nl [.text "a", .tag "code" [] [] (nl [.text "b"])])

/-!
General lemmas about the embedded operations.
-/

theorem digitChar_ne_space (n : Nat) : Nat.digitChar n ≠ ' ' := by
  rcases Nat.lt_or_ge n 16 with h | h
  · interval_cases n <;> decide
  · have hstar : Nat.digitChar n = '*' := by
      unfold Nat.digitChar
      repeat rw [if_neg (by omega)]
    rw [hstar]
    decide

theorem toDigitsCore_ne_space :
    ∀ (fuel n : Nat) (ds : List Char), (∀ c ∈ ds, c ≠ ' ') →
      ∀ c ∈ Nat.toDigitsCore 10 fuel n ds, c ≠ ' ' := by
  intro fuel
  induction fuel with
  | zero => intro n ds h c hc; exact h c hc
  | succ fuel ih =>
    intro n ds h c hc
    simp only [Nat.toDigitsCore] at hc
    split at hc
    · rcases List.mem_cons.1 hc with h1 | h2
      · exact h1 ▸ digitChar_ne_space _
      · exact h _ h2
    · refine ih _ _ ?_ _ hc
      intro d hd
      rcases List.mem_cons.1 hd with h1 | h2
      · exact h1 ▸ digitChar_ne_space _
      · exact h _ h2

theorem toDigitsCore_ne_nil :
    ∀ (fuel n : Nat) (ds : List Char), ds ≠ [] → Nat.toDigitsCore 10 fuel n ds ≠ [] := by
  intro fuel
  induction fuel with
  | zero => intro n ds h; exact h
  | succ fuel ih =>
    intro n ds h
    simp only [Nat.toDigitsCore]
    split
    · exact List.cons_ne_nil _ _
    · exact ih _ _ (List.cons_ne_nil _ _)

theorem repr_head_ne_space (n : Nat) : ∃ c cs, (Nat.repr n).data = c :: cs ∧ c ≠ ' ' := by
  have hdata : (Nat.repr n).data = Nat.toDigits 10 n := rfl
  have hne : Nat.toDigits 10 n ≠ [] := by
    unfold Nat.toDigits Nat.toDigitsCore
    by_cases h0 : n / 10 = 0
    · simp [h0]
    · simp only [h0, if_false]
      exact toDigitsCore_ne_nil _ _ _ (List.cons_ne_nil _ _)
  obtain ⟨c, cs, hcons⟩ := List.exists_cons_of_ne_nil hne
  refine ⟨c, cs, hdata ▸ hcons, ?_⟩
  have : c ∈ Nat.toDigits 10 n := hcons ▸ List.mem_cons_self _ _
  exact toDigitsCore_ne_space _ _ _ (by intro d hd; cases hd) _ this

theorem rdropWhile_append_of_not_all {α : Type} (p : α → Bool) (x y : List α)
    (h : ∃ c ∈ y, ¬ p c) : (x ++ y).rdropWhile p = x ++ y.rdropWhile p := by
  unfold List.rdropWhile
  rw [List.reverse_append, List.dropWhile_append]
  have hne : (y.reverse.dropWhile p) ≠ [] := by
    rw [ne_eq, List.dropWhile_eq_nil_iff]
    push_neg
    obtain ⟨c, hc, hpc⟩ := h
    exact ⟨c, List.mem_reverse.2 hc, hpc⟩
  rw [if_neg (by simpa [List.isEmpty_iff] using hne)]
  rw [List.reverse_append, List.reverse_reverse]

theorem pyRstrip_append (a b : String) (h : ∃ c ∈ b.data, isWS c = false) :
    pyRstrip (a ++ b) = a ++ pyRstrip b := by
  apply String.ext
  show List.rdropWhile isWS (a.data ++ b.data) = a.data ++ List.rdropWhile isWS b.data
  exact rdropWhile_append_of_not_all isWS a.data b.data
    (by obtain ⟨c, hc, hws⟩ := h; exact ⟨c, hc, by simp [hws]⟩)

theorem pyRstrip_last_not_ws (s : String) (h : ∃ c ∈ s.data, isWS c = false) :
    (pyRstrip s).data ≠ [] ∧ ∀ c, (pyRstrip s).data.getLast? = some c → isWS c = false := by
  have hne : (s.data.rdropWhile isWS) ≠ [] := by
    rw [ne_eq, List.rdropWhile_eq_nil_iff]
    push_neg
    obtain ⟨c, hc, hws⟩ := h
    exact ⟨c, hc, by simp [hws]⟩
  constructor
  · exact hne
  · intro c hc
    have hc' : (List.rdropWhile isWS s.data).getLast? = some c := hc
    rw [List.getLast?_eq_getLast _ hne] at hc'
    have hcc := Option.some.inj hc'
    have hlast := List.rdropWhile_last_not isWS s.data hne
    rw [hcc] at hlast
    simpa using hlast

theorem joinNL_cons_cons (a b : String) (l : List String) :
    joinNL (a :: b :: l) = a ++ "\n" ++ joinNL (b :: l) := rfl

/-!
Claim theorems.
-/

/-- C1.  Section suppression scope: on the sibling sequence
`[h2 References, p ignored, h2 See also, p ignored2, h2 History, p kept]`
the assembled body is exactly the History heading line and the paragraph
line `kept` with their blank separators; the boilerplate headings and
their trailing paragraphs are absent, the non-boilerplate `History`
heading having switched the filter back to including before being
rendered. -/
theorem section_suppression_scope :
    bodyLines sibsSuppression false = ["## History", "", "kept", ""] ∧
    "## References" ∉ bodyLines sibsSuppression false ∧
    "## See also" ∉ bodyLines sibsSuppression false ∧
    "ignored" ∉ bodyLines sibsSuppression false ∧
    "ignored2" ∉ bodyLines sibsSuppression false := by
  decide

/-- C2.  End-to-end example: the body
`[h2 Overview, p (A **legacy** system), ul [x, y]]` converts to exactly
the lines of the spec's example block, ending in one blank separator
line. -/
theorem end_to_end_example :
    bodyLines sibsExample false =
      ["## Overview", "", "A **legacy** system", "", "- x", "- y", ""] := by
  decide

/-- C8.  Heading rendering and level clamp: a heading node named
`h<n>` renders no lines when its inline text is empty, and otherwise one
line of `max 1 (min 6 n)` marker characters, a space and the text,
followed by one blank separator line — so level 0 renders with 1 marker
character and level 9 with 6. -/
theorem heading_level_clamp (n : Nat) (cls : List String)
    (attrs : List (String × String)) (ch : NodeList) (hn : n ≤ 9) :
    convert_heading (.tag ("h" ++ Nat.repr n) cls attrs ch) =
      (if pyStrip (convert_inline_children ("h" ++ Nat.repr n) ch) = "" then []
       else [hashMarks (max 1 (min 6 n)) ++ " "
              ++ pyStrip (convert_inline_children ("h" ++ Nat.repr n) ch), ""]) := by
  have hd : headingDigit ("h" ++ Nat.repr n) = n := by interval_cases n <;> rfl
  simp only [convert_heading, hd]

/-- Witness for C8: at level 0 the heading renders with one marker
character, at level 9 with six. -/
theorem heading_level_clamp_witness :
    convert_heading (.tag ("h" ++ Nat.repr 0) [] [] (nl [.text "T"])) = ["# T", ""] ∧
    convert_heading (.tag ("h" ++ Nat.repr 9) [] [] (nl [.text "T"])) = ["###### T", ""] :=
  ⟨(heading_level_clamp 0 [] [] (nl [.text "T"]) (by decide)).trans (by decide),
   (heading_level_clamp 9 [] [] (nl [.text "T"]) (by decide)).trans (by decide)⟩

/-- C9.  Determinism: converting the same tree with the same title, url
and download date twice yields byte-identical documents (the embedded
conversion is a pure function of its inputs). -/
theorem conversion_deterministic (soup : NodeList) (csv_title url : String) (d : PyDate) :
    html_to_markdown soup csv_title url d = html_to_markdown soup csv_title url d := rfl

/-- C10.  Block-separator invariant: every block renderer returns either
no lines or a sequence whose last line is the empty string, so every
non-empty rendered block ends with exactly one blank separator line. -/
theorem block_separator_invariant (t : Node) (indent : Nat) (ordered : Bool) :
    (convert_heading t = [] ∨ (convert_heading t).getLast? = some "") ∧
    (convert_paragraph t = [] ∨ (convert_paragraph t).getLast? = some "") ∧
    (convert_list t indent ordered = [] ∨ (convert_list t indent ordered).getLast? = some "") ∧
    (convert_blockquote t = [] ∨ (convert_blockquote t).getLast? = some "") ∧
    (convert_code_block t = [] ∨ (convert_code_block t).getLast? = some "") := by
  refine ⟨?_, ?_, ?_, ?_, ?_⟩
  · cases t with
    | text s => exact Or.inl rfl
    | tag name cls attrs ch =>
      simp only [convert_heading]
      split
      · exact Or.inl rfl
      · exact Or.inr rfl
  · cases t with
    | text s => exact Or.inl rfl
    | tag name cls attrs ch =>
      simp only [convert_paragraph]
      split
      · exact Or.inl rfl
      · exact Or.inr rfl
  · cases t with
    | text s => exact Or.inl rfl
    | tag name cls attrs ch =>
      simp only [convert_list]
      split
      · exact Or.inl rfl
      · exact Or.inr (List.getLast?_concat _)
  · cases t with
    | text s => exact Or.inl rfl
    | tag name cls attrs ch =>
      simp only [convert_blockquote]
      split
      · exact Or.inl rfl
      · exact Or.inr (List.getLast?_concat _)
  · exact Or.inr rfl

theorem str_empty_append (s : String) : "" ++ s = s := rfl

theorem fourIndent_line (m rest : String) (hm : ∃ c cs, m.data = c :: cs ∧ c ≠ ' ') :
    FourIndent (indentStr 2 ++ m ++ rest) := by
  obtain ⟨c, cs, hd, hc⟩ := hm
  have hdata : (indentStr 2 ++ m ++ rest).data = (indentStr 2).data ++ (m.data ++ rest.data) := by
    simp [String.data_append, List.append_assoc]
  have hlen : (indentStr 2).data.length = 4 := rfl
  constructor
  · show ((indentStr 2 ++ m ++ rest).data).take 4 = (indentStr 2).data
    rw [hdata]
    exact List.take_left' hlen
  · intro c' hc'
    rw [hdata, List.drop_left' hlen, hd] at hc'
    simp only [List.cons_append, List.head?_cons, Option.some.injEq] at hc'
    exact hc' ▸ hc

mutual
theorem fourIndent_cl : ∀ (t : Node) (b : Bool) (l : String),
    l ∈ convert_list t 2 b → l = "" ∨ FourIndent l
  | .text _, _, _ => fun h => absurd h (List.not_mem_nil _)
  | .tag _ _ _ ch, b, l => fun h => by
      simp only [convert_list] at h
      split at h
      · exact absurd h (List.not_mem_nil _)
      · rcases List.mem_append.1 h with h1 | h2
        · exact fourIndent_items ch 1 b l h1
        · exact Or.inl (List.mem_singleton.1 h2)
theorem fourIndent_items : ∀ (ch : NodeList) (idx : Nat) (b : Bool) (l : String),
    l ∈ convert_list_items ch idx 2 b → l = "" ∨ FourIndent l
  | .nil, _, _, _ => fun h => absurd h (List.not_mem_nil _)
  | .cons c rest, idx, b, l => fun h => by
      simp only [convert_list_items] at h
      split at h
      · rcases List.mem_append.1 h with h1 | h2
        · exact fourIndent_item c idx b l h1
        · exact fourIndent_items rest (idx + 1) b l h2
      · exact fourIndent_items rest idx b l h
theorem fourIndent_item : ∀ (c : Node) (idx : Nat) (b : Bool) (l : String),
    l ∈ convert_list_item c idx 2 b → l = "" ∨ FourIndent l
  | .text _, _, _, _ => fun h => absurd h (List.not_mem_nil _)
  | .tag nm _ _ ch, idx, b, l => fun h => by
      simp only [convert_list_item] at h
      rcases List.mem_append.1 h with h1 | h2
      · split at h1
        · refine Or.inr ?_
          rw [List.mem_singleton.1 h1, String.append_assoc]
          cases b with
          | false =>
            exact fourIndent_line "-" _ ⟨'-', [], rfl, by decide⟩
          | true =>
            obtain ⟨d, ds, hd, hds⟩ := repr_head_ne_space idx
            refine fourIndent_line (Nat.repr idx ++ ".") _ ⟨d, ds ++ ['.'], ?_, hds⟩
            rw [String.data_append, hd]
            rfl
        · exact absurd h1 (List.not_mem_nil _)
      · exact fourIndent_subs ch l h2
theorem fourIndent_subs : ∀ (ch : NodeList) (l : String),
    l ∈ convert_list_subs ch 2 → l = "" ∨ FourIndent l
  | .nil, _ => fun h => absurd h (List.not_mem_nil _)
  | .cons c rest, l => fun h => by
      simp only [convert_list_subs] at h
      rcases List.mem_append.1 h with h1 | h2
      · split at h1
        · exact fourIndent_cl c (isOl c) l h1
        · exact absurd h1 (List.not_mem_nil _)
      · exact fourIndent_subs rest l h2
end

/-- C4.  List depth clamp: recursion into a nested list uses the indent
`min (indent + 1) 2`, so every list rendered at the clamped depth 2 —
which includes every list nested two or more levels deep, however deep —
emits every non-blank line with exactly the two-level four-space indent:
its first four characters are the indent and its fifth is not a space. -/
theorem nested_list_depth_clamp (t : Node) (b : Bool) (l : String)
    (hmem : l ∈ convert_list t 2 b) (hne : l ≠ "") : FourIndent l := by
  rcases fourIndent_cl t b l hmem with h | h
  · exact absurd h hne
  · exact h

/-- Witness for C4: the single item line of a one-item list rendered at
depth 2 carries exactly a four-space indent. -/
theorem nested_list_depth_clamp_witness : FourIndent "    - a" :=
  nested_list_depth_clamp ulSimple false "    - a" (by decide) (by decide)

theorem convert_list_subs_eq : ∀ (ch : NodeList) (indent : Nat),
    convert_list_subs ch indent =
      ((ch.toList.filter (fun c => isSubList c)).map
        (fun s => convert_list s (min (indent + 1) 2) (isOl s))).flatten
  | .nil, _ => rfl
  | .cons c rest, indent => by
      simp only [convert_list_subs, NodeList.toList, List.filter_cons]
      by_cases hc : isSubList c
      · simp [hc, convert_list_subs_eq rest indent]
      · simp [hc, convert_list_subs_eq rest indent]

theorem convert_list_item_eq (c : Node) (idx indent : Nat) :
    convert_list_item c idx indent true = orderedItemSpec idx c indent := by
  cases c with
  | text s => rfl
  | tag nm cls attrs ch =>
    simp only [convert_list_item, orderedItemSpec, itemTextOf, subListsOf, nameOf, childrenOf]
    rw [convert_list_subs_eq]
    simp

theorem convert_list_items_eq : ∀ (ch : NodeList) (idx indent : Nat),
    convert_list_items ch idx indent true =
      (((ch.toList.filter (fun c => isLiTag c)).enumFrom idx).map
        (fun p => orderedItemSpec p.1 p.2 indent)).flatten
  | .nil, _, _ => rfl
  | .cons c rest, idx, indent => by
      simp only [convert_list_items, NodeList.toList, List.filter_cons]
      by_cases hc : isLiTag c
      · simp only [hc, if_true, List.enumFrom_cons, List.map_cons, List.flatten_cons]
        rw [convert_list_item_eq, convert_list_items_eq rest (idx + 1) indent]
      · simp only [hc, Bool.false_eq_true, if_false]
        exact convert_list_items_eq rest idx indent

/-- C5.  Ordered-list marker position: rendering an ordered list is
extensionally the enumeration of its `<li>` children from position 1 —
each item's marker is its 1-based sibling position, positions are
consumed by items whose rendered text is empty (they emit no line), and
an item line is emitted only when its rendered text is non-empty. -/
theorem ordered_marker_positions (t : Node) (indent : Nat) :
    convert_list t indent true = orderedListSpec t indent := by
  cases t with
  | text s => rfl
  | tag nm cls attrs ch =>
    simp only [convert_list, orderedListSpec, liChildren, childrenOf]
    rw [convert_list_items_eq]
    by_cases hX : ((((ch.toList.filter (fun c => isLiTag c)).enumFrom 1).map
        (fun p => orderedItemSpec p.1 p.2 indent)).flatten) = []
    · simp [hX]
    · simp [hX, List.isEmpty_iff]

theorem rdropWhile_append_rtakeWhile {α : Type} (p : α → Bool) (l : List α) :
    l.rdropWhile p ++ l.rtakeWhile p = l := by
  unfold List.rdropWhile List.rtakeWhile
  rw [← List.reverse_append, List.takeWhile_append_dropWhile, List.reverse_reverse]

/-- Counterexample for C6: on a preformatted node whose text is split
across an element boundary the renderer does not emit the node's raw
text content — the extraction joins the two text runs with an inserted
line break (`a` and `b` become `a\nb`, not `ab`). -/
theorem code_block_raw_text_cex :
    convert_code_block preMixed ≠ convert_code_block_claim preMixed := by
  decide

/-- C6 (amended).  Preformatted-block rendering: the renderer joins the
node's text runs with line-break separators (so a single run's internal
line breaks are preserved exactly, but adjacent runs are separated by an
inserted line break), strips the trailing run of newline characters —
the trailing empty lines — from that content, and emits a fence line
before it, a fence line after it, and one blank separator line. -/
theorem code_block_amended (t : Node) :
    ∃ c k, convert_code_block t = ["```", c, "```", ""] ∧
      String.intercalate "\n" (textRuns t) = c ++ String.mk (List.replicate k '\n') ∧
      ∀ ch, c.data.getLast? = some ch → ch ≠ '\n' := by
  refine ⟨rstripNL (getTextSep "\n" t),
    (List.rtakeWhile (fun c => c == '\n') (getTextSep "\n" t).data).length, rfl, ?_, ?_⟩
  · apply String.ext
    show (getTextSep "\n" t).data =
      List.rdropWhile (fun c => c == '\n') (getTextSep "\n" t).data ++
        List.replicate (List.rtakeWhile (fun c => c == '\n') (getTextSep "\n" t).data).length '\n'
    have h2 : List.rtakeWhile (fun c => c == '\n') (getTextSep "\n" t).data =
        List.replicate (List.rtakeWhile (fun c => c == '\n') (getTextSep "\n" t).data).length '\n' := by
      refine List.eq_replicate_iff.2 ⟨rfl, ?_⟩
      intro b hb
      simpa using List.mem_rtakeWhile_imp hb
    rw [← h2]
    exact (rdropWhile_append_rtakeWhile _ _).symm
  · intro ch hch
    have hne : (List.rdropWhile (fun c => c == '\n') (getTextSep "\n" t).data) ≠ [] := by
      intro hnil
      have hch' : (List.rdropWhile (fun c => c == '\n') (getTextSep "\n" t).data).getLast? = some ch := hch
      rw [hnil] at hch'
      cases hch'
    have hch' : (List.rdropWhile (fun c => c == '\n') (getTextSep "\n" t).data).getLast? = some ch := hch
    rw [List.getLast?_eq_getLast _ hne] at hch'
    have hcc := Option.some.inj hch'
    have hlast := List.rdropWhile_last_not (fun c => c == '\n') (getTextSep "\n" t).data hne
    rw [hcc] at hlast
    simpa using hlast

/-- Witness for C6 (amended), instantiated at the split-text
preformatted node. -/
theorem code_block_amended_witness :
    ∃ c k, convert_code_block preMixed = ["```", c, "```", ""] ∧
      String.intercalate "\n" (textRuns preMixed) = c ++ String.mk (List.replicate k '\n') ∧
      ∀ ch, c.data.getLast? = some ch → ch ≠ '\n' :=
  code_block_amended preMixed

theorem joinNL_expand (a1 a2 a3 a4 a5 a6 a7 a8 : String) (body : List String) :
    joinNL (a1 :: a2 :: a3 :: a4 :: a5 :: a6 :: a7 :: a8 :: body) =
      a1 ++ "\n" ++ (a2 ++ "\n" ++ (a3 ++ "\n" ++ (a4 ++ "\n" ++ (a5 ++ "\n"
        ++ (a6 ++ "\n" ++ (a7 ++ "\n" ++ joinNL (a8 :: body))))))) := rfl

theorem joinNL_header (ct u iso at' : String) (body : List String) :
    joinNL (["---", "title: " ++ ct, "url: " ++ u, "download_date: " ++ iso,
        "---", "", "# " ++ at', ""] ++ body) =
      ("---" ++ "\n" ++ ("title: " ++ ct) ++ "\n" ++ ("url: " ++ u) ++ "\n"
          ++ ("download_date: " ++ iso) ++ "\n" ++ "---" ++ "\n")
        ++ ("\n" ++ ("# " ++ (at' ++ ("\n" ++ joinNL ("" :: body))))) := by
  show joinNL ("---" :: ("title: " ++ ct) :: ("url: " ++ u) :: ("download_date: " ++ iso)
    :: "---" :: "" :: ("# " ++ at') :: "" :: body) = _
  rw [joinNL_expand]
  simp only [String.append_assoc, str_empty_append]

theorem html_some_decomp (soup : NodeList) (ct u : String) (d : PyDate) (content : Node)
    (hfind : findNodeList isContentDiv soup = some content) :
    ∃ at', html_to_markdown soup ct u d =
      some (pyRstrip (headerFor ct u d ++ ("\n" ++ ("# " ++ (at'
        ++ ("\n" ++ joinNL ("" :: bodyLines (childrenOf content) false)))))) ++ "\n") := by
  refine ⟨(match findNodeList isH1 soup with
    | some tt => getTextStripCat tt
    | none => ct), ?_⟩
  simp only [html_to_markdown, hfind]
  rw [joinNL_header]
  rfl

/-- C3.  Conversion fails — returns no document — exactly when the
content container cannot be located in the parsed tree; in every other
case (a filtered body producing zero blocks included) it returns a
document that starts with the full well-formed metadata header. -/
theorem conversion_error_iff_content_missing (soup : NodeList) (ct u : String) (d : PyDate) :
    (html_to_markdown soup ct u d = none ↔ findNodeList isContentDiv soup = none) ∧
    (∀ md, html_to_markdown soup ct u d = some md → ∃ r, md = headerFor ct u d ++ r) := by
  cases hfind : findNodeList isContentDiv soup with
  | none =>
    constructor
    · simp [html_to_markdown, hfind]
    · intro md hmd
      simp [html_to_markdown, hfind] at hmd
  | some content =>
    obtain ⟨at', hdecomp⟩ := html_some_decomp soup ct u d content hfind
    constructor
    · rw [hdecomp]
      simp
    · intro md hmd
      rw [hdecomp] at hmd
      have hmd' := Option.some.inj hmd
      have hQ : ∃ c ∈ ("\n" ++ ("# " ++ (at'
          ++ ("\n" ++ joinNL ("" :: bodyLines (childrenOf content) false))))).data,
          isWS c = false := by
        refine ⟨'#', ?_, by decide⟩
        rw [String.data_append]
        refine List.mem_append_right _ ?_
        rw [String.data_append]
        refine List.mem_append_left _ ?_
        decide
      rw [pyRstrip_append _ _ hQ] at hmd'
      exact ⟨pyRstrip ("\n" ++ ("# " ++ (at'
          ++ ("\n" ++ joinNL ("" :: bodyLines (childrenOf content) false))))) ++ "\n",
        by rw [← hmd', String.append_assoc]⟩

/-- Witness for C3: a tree without the content container converts to
nothing; a tree with an empty content container converts to a header-only
document carrying the full metadata header. -/
theorem conversion_error_iff_content_missing_witness :
    (html_to_markdown soupNoContent "T" "U" ⟨2024, 1, 2⟩ = none ↔
      findNodeList isContentDiv soupNoContent = none) ∧
    (∃ r, "---\ntitle: T\nurl: U\ndownload_date: 2024-01-02\n---\n\n# T\n" =
      headerFor "T" "U" ⟨2024, 1, 2⟩ ++ r) :=
  ⟨(conversion_error_iff_content_missing soupNoContent "T" "U" ⟨2024, 1, 2⟩).1,
   (conversion_error_iff_content_missing soupMinimal "T" "U" ⟨2024, 1, 2⟩).2 _ (by decide)⟩

/-- C7.  Final-document termination: every successfully converted
document is a non-empty text whose last character before the final line
break is not whitespace — no trailing blank lines — followed by exactly
one trailing line break. -/
theorem document_single_trailing_newline (soup : NodeList) (ct u : String) (d : PyDate)
    (md : String) (hmd : html_to_markdown soup ct u d = some md) :
    ∃ s, md = s ++ "\n" ∧ s ≠ "" ∧ ∀ c, s.data.getLast? = some c → isWS c = false := by
  cases hfind : findNodeList isContentDiv soup with
  | none => simp [html_to_markdown, hfind] at hmd
  | some content =>
    obtain ⟨at', hdecomp⟩ := html_some_decomp soup ct u d content hfind
    rw [hdecomp] at hmd
    have hmd' := Option.some.inj hmd
    have hdash : ∃ c ∈ (headerFor ct u d ++ ("\n" ++ ("# " ++ (at'
        ++ ("\n" ++ joinNL ("" :: bodyLines (childrenOf content) false)))))).data,
        isWS c = false := by
      refine ⟨'-', ?_, by decide⟩
      rw [String.data_append]
      refine List.mem_append_left _ ?_
      simp only [headerFor, String.data_append, List.mem_append]
      exact Or.inl (Or.inr (by decide))
    obtain ⟨hne, hlast⟩ := pyRstrip_last_not_ws _ hdash
    refine ⟨pyRstrip (headerFor ct u d ++ ("\n" ++ ("# " ++ (at'
        ++ ("\n" ++ joinNL ("" :: bodyLines (childrenOf content) false)))))),
      hmd'.symm, ?_, hlast⟩
    intro h0
    exact hne (by rw [h0])

/-- Witness for C7: the header-only document of the empty content
container ends in exactly one line break after a non-blank line. -/
theorem document_single_trailing_newline_witness :
    ∃ s, "---\ntitle: T\nurl: U\ndownload_date: 2024-01-02\n---\n\n# T\n" = s ++ "\n" ∧
      s ≠ "" ∧ ∀ c, s.data.getLast? = some c → isWS c = false :=
  document_single_trailing_newline soupMinimal "T" "U" ⟨2024, 1, 2⟩ _ (by decide)

end Wikisnap
